import Mathlib

/-!
Shallow embedding of the rotatee rotation engine (src/cmd/rotatee/main.go,
with the variant in src/unnamed/part_000) and proofs about it.

Go errors are modelled by `Option Err` (`none` = nil); the three error kinds
the code distinguishes via `errors.Is` are `os.ErrInvalid`, `syscall.EPIPE`,
and everything else.  Each `mode*` function `func(error) error` is modelled
as returning the error value it returns together with a flag recording
whether it called `log.Println`.
-/

namespace Rotatee

/-- Error kinds distinguished by the code: `os.ErrInvalid`, `syscall.EPIPE`,
and any other non-nil error. A Go `error` value is `Option Err`. -/
inductive Err
  | invalid
  | epipe
  | other
deriving DecidableEq, Repr

/-- Observable behaviour of one `func(error) error` call in main.go:
the returned error and whether `log.Println` was called. -/
structure ModeResult where
  ret : Option Err
  logged : Bool
deriving DecidableEq, Repr

/-- main.go `modeIgnore`: `return nil`. -/
def modeIgnore (_e : Option Err) : ModeResult := ⟨none, false⟩

/-- main.go `modeWarn`: nil or `os.ErrInvalid` are suppressed; anything else
is logged and suppressed. -/
def modeWarn (e : Option Err) : ModeResult :=
  if e = none ∨ e = some .invalid then ⟨none, false⟩
  else ⟨none, true⟩

/-- main.go `modeWarnNoPipe`: nil, `os.ErrInvalid` or `syscall.EPIPE` are
suppressed; anything else is logged and suppressed. -/
def modeWarnNoPipe (e : Option Err) : ModeResult :=
  if e = none ∨ e = some .invalid ∨ e = some .epipe then ⟨none, false⟩
  else ⟨none, true⟩

/-- main.go `modeExit`: `return err` unchanged. -/
def modeExit (e : Option Err) : ModeResult := ⟨e, false⟩

/-- main.go `modeExitNoPipe`: nil, `os.ErrInvalid` or `syscall.EPIPE` are
suppressed; anything else is returned. -/
def modeExitNoPipe (e : Option Err) : ModeResult :=
  if e = none ∨ e = some .invalid ∨ e = some .epipe then ⟨none, false⟩
  else ⟨e, false⟩

/-- main.go `modeSigPipe`: nil or `os.ErrInvalid` suppressed, `syscall.EPIPE`
returned, anything else logged and suppressed. -/
def modeSigPipe (e : Option Err) : ModeResult :=
  if e = none ∨ e = some .invalid then ⟨none, false⟩
  else if e = some .epipe then ⟨e, false⟩
  else ⟨none, true⟩

/-- main.go `mode`: select the error-mode function from the
`-output-error` string; the Go `switch` is an equality chain with
`modeSigPipe` as the default. -/
def mode (s : String) : Option Err → ModeResult :=
  if s = "ignore" then modeIgnore
  else if s = "warn" then modeWarn
  else if s = "warn-nopipe" then modeWarnNoPipe
  else if s = "exit" then modeExit
  else if s = "exit-nopipe" then modeExitNoPipe
  else modeSigPipe

/-- The six named policies of main.go, as the closed set of functions
`mode` can return. -/
inductive PolicyName
  | ignore
  | warn
  | warnNoPipe
  | exit
  | exitNoPipe
  | sigpipe
deriving DecidableEq, Repr

/-- The mode function main.go associates with each named policy. -/
def policyFun : PolicyName → Option Err → ModeResult
  | .ignore => modeIgnore
  | .warn => modeWarn
  | .warnNoPipe => modeWarnNoPipe
  | .exit => modeExit
  | .exitNoPipe => modeExitNoPipe
  | .sigpipe => modeSigPipe

/-- Verdict vocabulary of the spec's §4.1 table. -/
inductive Verdict
  | suppress
  | log
  | propagate
deriving DecidableEq, Repr

/-- The verdict a `ModeResult` amounts to: a returned non-nil error is
propagated (caller treats it as fatal), otherwise logged or suppressed
according to whether `log.Println` ran. -/
def verdictOf (r : ModeResult) : Verdict :=
  match r.ret with
  | some _ => .propagate
  | none => if r.logged then .log else .suppress

/-- The sink a write error occurred on (passthrough = stdout, file sink);
main.go applies the same `errMode` function to both. -/
inductive Sink
  | passthrough
  | file
deriving DecidableEq, Repr

/-- The spec's §4.1 classification table, transcribed row by row from the
spec's words (not from the code). -/
def specTableVerdict : PolicyName → Option Err → Verdict
  | .ignore, _ => .suppress
  | .warn, none => .suppress
  | .warn, some .invalid => .suppress
  | .warn, some .epipe => .log
  | .warn, some .other => .log
  | .warnNoPipe, none => .suppress
  | .warnNoPipe, some .invalid => .suppress
  | .warnNoPipe, some .epipe => .suppress
  | .warnNoPipe, some .other => .log
  | .exit, none => .suppress
  | .exit, some .invalid => .propagate
  | .exit, some .epipe => .propagate
  | .exit, some .other => .propagate
  | .exitNoPipe, none => .suppress
  | .exitNoPipe, some .invalid => .suppress
  | .exitNoPipe, some .epipe => .suppress
  | .exitNoPipe, some .other => .propagate
  | .sigpipe, none => .suppress
  | .sigpipe, some .invalid => .suppress
  | .sigpipe, some .epipe => .propagate
  | .sigpipe, some .other => .log

end Rotatee

namespace Rotatee

/-- C2: For each of the six named policies and each error kind, the
classification function's verdict is exactly the spec table's entry,
regardless of which sink the error occurred on (the mode functions never
inspect a sink, so the verdict is the same for both). -/
theorem mode_matches_spec_table (_sink : Sink) (p : PolicyName) (e : Option Err) :
    verdictOf (policyFun p e) = specTableVerdict p e := by
  cases p <;> rcases e with _ | e <;> first | rfl | (cases e <;> rfl)

/-- C9: every selector string other than the five explicitly matched names
(`ignore`, `warn`, `warn-nopipe`, `exit`, `exit-nopipe`) — including the
empty string and arbitrary unrecognized values — selects `modeSigPipe`. -/
theorem mode_default_sigpipe (s : String)
    (h1 : s ≠ "ignore") (h2 : s ≠ "warn") (h3 : s ≠ "warn-nopipe")
    (h4 : s ≠ "exit") (h5 : s ≠ "exit-nopipe") :
    mode s = modeSigPipe := by
  simp [mode, h1, h2, h3, h4, h5]

/-- Witness for C9 at the concrete unrecognized strings "" and "bogus". -/
theorem mode_default_sigpipe_witness :
    mode "" = modeSigPipe ∧ mode "bogus" = modeSigPipe :=
  ⟨mode_default_sigpipe "" (by decide) (by decide) (by decide) (by decide)
      (by decide),
   mode_default_sigpipe "bogus" (by decide) (by decide) (by decide) (by decide)
      (by decide)⟩

/-! ## The rotation engine `run` (main.go lines 143-206)

The loop body of `run` is modelled as a pure step function.  Per iteration
the environment supplies the scanned line together with the raw errors of
the five fallible operations of that iteration (`fmt.Println`, `f.Close`,
`state.rename`, `os.OpenFile`, `fmt.Fprintln`; nil when the operation
succeeds) and the event, if any, pending on `state.sigch` at the
non-blocking `select`.  File paths are abstracted to the order in which
`state.path(time.Now())` allocates them (0 = the file opened before the
loop); file contents are the list of lines successfully written.  -/

/-- Signals forwarded by `State.signal` to `state.sigch` and consumed by
the `select` in `run`. -/
inductive Event
  | sighup
  | sigterm
deriving DecidableEq, Repr

/-- Environment of one iteration of the `run` loop: the scanned line, the
raw error of each fallible operation of that iteration, and the event
pending (if any) at the non-blocking `select`. -/
structure LineInput where
  line : String
  stdoutErr : Option Err
  closeErr : Option Err
  renameErr : Option Err
  openErr : Option Err
  fileErr : Option Err
  ev : Option Event
deriving DecidableEq, Repr

/-- An iteration in which every operation succeeds and no signal is
pending. -/
def plainLine (s : String) : LineInput := ⟨s, none, none, none, none, none, none⟩

/-- An errorless iteration with an event pending at the `select`. -/
def evLine (s : String) (ev : Option Event) : LineInput :=
  ⟨s, none, none, none, none, none, ev⟩

/-- Go `len(s)`: the UTF-8 byte length of the line. -/
def byteLen (s : String) : Nat := s.utf8ByteSize

/-- Mutable state of `run`: `state.cur`, the `rotate` flag, the current
in-progress path (`path`) with the next fresh path id, the lines written to
the current file, the contents of files finalized (successfully renamed) by
rotations, the paths successfully renamed so far, and the lines echoed to
stdout. -/
structure EngineState where
  cur : Nat
  rotate : Bool
  path : Nat
  nextPath : Nat
  curFile : List String
  finalized : List (List String)
  renameTrace : List Nat
  stdout : List String
deriving DecidableEq, Repr

/-- How one iteration of the loop body ended. -/
inductive StepExit
  | cont
  | term
  | fatal (e : Err)
deriving DecidableEq, Repr

/-- The rotation block of `run` (main.go lines 168-185): clear the flag,
zero the counter, close the file, finalize its path, open a fresh path.
Returns the propagated error, if the error mode made any step fatal. -/
def rotatePhase (errMode : Option Err → ModeResult) (st : EngineState)
    (it : LineInput) : EngineState × Option Err :=
  let stB := { st with rotate := false, cur := 0 }
  match (errMode it.closeErr).ret with
  | some e => (stB, some e)
  | none =>
    let stC :=
      if it.renameErr = none then
        { stB with finalized := stB.finalized ++ [stB.curFile],
                   renameTrace := stB.renameTrace ++ [stB.path] }
      else stB
    match (errMode it.renameErr).ret with
    | some e => (stC, some e)
    | none =>
      let stD := { stC with path := stC.nextPath, nextPath := stC.nextPath + 1,
                            curFile := [] }
      match (errMode it.openErr).ret with
      | some e => (stD, some e)
      | none => (stD, none)

/-- The tail of the loop body (main.go lines 187-202): add `len(s)+1` to
`state.cur`, write the line to the file sink, then poll `state.sigch`
non-blockingly: SIGTERM ends the loop, SIGHUP sets the rotate flag. -/
def writePhase (errMode : Option Err → ModeResult) (st : EngineState)
    (it : LineInput) : EngineState × StepExit :=
  let st1 := { st with cur := st.cur + (byteLen it.line + 1) }
  let st2 := { st1 with curFile :=
    if it.fileErr = none then st1.curFile ++ [it.line] else st1.curFile }
  match (errMode it.fileErr).ret with
  | some e => (st2, .fatal e)
  | none =>
    match it.ev with
    | some .sigterm => (st2, .term)
    | some .sighup => ({ st2 with rotate := true }, .cont)
    | none => (st2, .cont)

/-- One iteration of the `run` loop body (main.go lines 157-203): echo the
line to stdout, look-ahead size check (`len(s)+1+state.cur > maxsize` sets
the rotate flag), rotation block if the flag is set, then the write phase. -/
def step (errMode : Option Err → ModeResult) (maxsize : Nat)
    (st : EngineState) (it : LineInput) : EngineState × StepExit :=
  let stA := { st with stdout :=
    if it.stdoutErr = none then st.stdout ++ [it.line] else st.stdout }
  match (errMode it.stdoutErr).ret with
  | some e => (stA, .fatal e)
  | none =>
    let rot : Bool := decide (byteLen it.line + 1 + stA.cur > maxsize) || stA.rotate
    if rot then
      match rotatePhase errMode stA it with
      | (stD, some e) => (stD, .fatal e)
      | (stD, none) => writePhase errMode stD it
    else
      writePhase errMode stA it

/-- Outcome of `run`: the engine state at the moment the loop exits, the
path targeted by the deferred `state.rename(path)` cleanup (main.go lines
150-152, executed on every exit from `run`), and the error `run` returns
(`none` = nil). -/
structure RunResult where
  state : EngineState
  deferredRenamePath : Nat
  ret : Option Err
deriving DecidableEq, Repr

/-- The `for stdin.Scan()` loop of `run`: consume iterations until the
input ends (returning `stdin.Err()`, modelled by `scanErr`), a SIGTERM is
polled (returning nil), or a fatal error propagates.  In every case the
deferred cleanup renames the current path. -/
def runLoop (errMode : Option Err → ModeResult) (maxsize : Nat)
    (st : EngineState) : List LineInput → Option Err → RunResult
  | [], scanErr => ⟨st, st.path, scanErr⟩
  | it :: rest, scanErr =>
    match step errMode maxsize st it with
    | (st', .cont) => runLoop errMode maxsize st' rest scanErr
    | (st', .term) => ⟨st', st'.path, none⟩
    | (st', .fatal e) => ⟨st', st'.path, some e⟩

/-- Engine state right after the initial `os.OpenFile` of `run` succeeds:
path 0 open, empty file, zero counter, rotate flag clear. -/
def initState : EngineState := ⟨0, false, 0, 1, [], [], [], []⟩

/-- `run` from the state after the initial open: process the iterations,
then return `stdin.Err()` on end of input. -/
def run (errMode : Option Err → ModeResult) (maxsize : Nat)
    (its : List LineInput) (scanErr : Option Err) : RunResult :=
  runLoop errMode maxsize initState its scanErr

/-- `run` on an error-free, signal-free input: every line is scanned and
both writes succeed. -/
def pureRun (p : PolicyName) (maxsize : Nat) (lines : List String) : RunResult :=
  run (policyFun p) maxsize (lines.map plainLine) none

/-- Size in bytes of a file's content: each line costs `len(s)+1` (the
newline `fmt.Fprintln` appends). -/
def fileBytes (ls : List String) : Nat := (ls.map (fun s => byteLen s + 1)).sum

lemma policyFun_none (p : PolicyName) : policyFun p none = ⟨none, false⟩ := by
  cases p <;> rfl

lemma plainLine_eq_evLine (s : String) : plainLine s = evLine s none := rfl

/-- Unfolding of an errorless iteration that rotates (the look-ahead size
check fires or the rotate flag was already set). -/
lemma step_evLine_rot (p : PolicyName) (maxsize : Nat) (st : EngineState)
    (s : String) (ev : Option Event)
    (h : byteLen s + 1 + st.cur > maxsize ∨ st.rotate = true) :
    step (policyFun p) maxsize st (evLine s ev) =
      ({ cur := byteLen s + 1,
         rotate := decide (ev = some Event.sighup),
         path := st.nextPath,
         nextPath := st.nextPath + 1,
         curFile := [s],
         finalized := st.finalized ++ [st.curFile],
         renameTrace := st.renameTrace ++ [st.path],
         stdout := st.stdout ++ [s] },
       if ev = some Event.sigterm then StepExit.term else StepExit.cont) := by
  have hp := policyFun_none p
  rcases h with h | h
  · rcases ev with _ | e
    · simp [step, evLine, rotatePhase, writePhase, hp, h]
    · cases e <;> simp [step, evLine, rotatePhase, writePhase, hp, h]
  · rcases ev with _ | e
    · simp [step, evLine, rotatePhase, writePhase, hp, h]
    · cases e <;> simp [step, evLine, rotatePhase, writePhase, hp, h]

/-- Unfolding of an errorless iteration that does not rotate. -/
lemma step_evLine_norot (p : PolicyName) (maxsize : Nat) (st : EngineState)
    (s : String) (ev : Option Event)
    (h1 : byteLen s + 1 + st.cur ≤ maxsize) (h2 : st.rotate = false) :
    step (policyFun p) maxsize st (evLine s ev) =
      ({ st with cur := st.cur + (byteLen s + 1),
                 rotate := decide (ev = some Event.sighup),
                 curFile := st.curFile ++ [s],
                 stdout := st.stdout ++ [s] },
       if ev = some Event.sigterm then StepExit.term else StepExit.cont) := by
  have hp := policyFun_none p
  have h1' : ¬ (byteLen s + 1 + st.cur > maxsize) := not_lt.mpr h1
  rcases ev with _ | e
  · simp [step, evLine, writePhase, hp, h1', h2]
  · cases e <;> simp [step, evLine, writePhase, hp, h1', h2]

/-- An errorless iteration exits with `term` exactly on a pending SIGTERM,
and otherwise continues. -/
lemma step_evLine_snd (p : PolicyName) (maxsize : Nat) (st : EngineState)
    (s : String) (ev : Option Event) :
    (step (policyFun p) maxsize st (evLine s ev)).2 =
      if ev = some Event.sigterm then StepExit.term else StepExit.cont := by
  by_cases hc : byteLen s + 1 + st.cur > maxsize ∨ st.rotate = true
  · rw [step_evLine_rot p maxsize st s ev hc]
  · push_neg at hc
    rw [step_evLine_norot p maxsize st s ev hc.1 (Bool.not_eq_true _ ▸ hc.2)]

/-- Unfolding `runLoop` over a non-empty input. -/
lemma runLoop_cons (em : Option Err → ModeResult) (ms : Nat) (st : EngineState)
    (it : LineInput) (rest : List LineInput) (scanErr : Option Err) :
    runLoop em ms st (it :: rest) scanErr =
      match step em ms st it with
      | (st', .cont) => runLoop em ms st' rest scanErr
      | (st', .term) => ⟨st', st'.path, none⟩
      | (st', .fatal e) => ⟨st', st'.path, some e⟩ := rfl

/-- Total bytes the files receive for the consumed lines. -/
def totalBytes (lines : List String) : Nat :=
  (lines.map (fun s => byteLen s + 1)).sum

/-- Bytes across all finalized files plus the currently open file. -/
def sinkBytes (st : EngineState) : Nat :=
  (st.finalized.map fileBytes).sum + fileBytes st.curFile

/-- Loop invariant for the byte counter and file sizes: `state.cur` equals
the byte size of the current file's content, every finalized file is within
the limit or a single (oversized) line, and likewise the current file. -/
def Inv (maxsize : Nat) (st : EngineState) : Prop :=
  st.cur = fileBytes st.curFile ∧
  (∀ F ∈ st.finalized, fileBytes F ≤ maxsize ∨ ∃ s, F = [s]) ∧
  (fileBytes st.curFile ≤ maxsize ∨ ∃ s, st.curFile = [s])

lemma inv_initState (maxsize : Nat) : Inv maxsize initState := by
  refine ⟨rfl, ?_, Or.inl ?_⟩ <;> simp [initState, fileBytes]

/-- One errorless iteration preserves `Inv` and adds exactly `len(s)+1`
bytes to the file sinks. -/
lemma inv_step (p : PolicyName) (maxsize : Nat) (st : EngineState)
    (s : String) (ev : Option Event) (hInv : Inv maxsize st) :
    Inv maxsize (step (policyFun p) maxsize st (evLine s ev)).1 ∧
    sinkBytes (step (policyFun p) maxsize st (evLine s ev)).1 =
      sinkBytes st + (byteLen s + 1) := by
  obtain ⟨hA, hF, hC⟩ := hInv
  by_cases hc : byteLen s + 1 + st.cur > maxsize ∨ st.rotate = true
  · rw [step_evLine_rot p maxsize st s ev hc]
    refine ⟨⟨?_, ?_, Or.inr ⟨s, rfl⟩⟩, ?_⟩
    · simp [fileBytes]
    · intro F hf
      rcases List.mem_append.mp hf with h | h
      · exact hF F h
      · simp only [List.mem_singleton] at h
        subst h
        exact hC
    · simp [sinkBytes, fileBytes]
  · push_neg at hc
    have h1 : byteLen s + 1 + st.cur ≤ maxsize := hc.1
    have h2 : st.rotate = false := Bool.not_eq_true _ ▸ hc.2
    rw [step_evLine_norot p maxsize st s ev h1 h2]
    have hgrow : fileBytes (st.curFile ++ [s]) = fileBytes st.curFile + (byteLen s + 1) := by
      simp [fileBytes]
    refine ⟨⟨?_, hF, Or.inl ?_⟩, ?_⟩
    · simpa [hgrow] using by omega
    · simp only [hgrow]
      omega
    · simp [sinkBytes, hgrow]
      omega

/-- `Inv` and byte conservation over a whole error-free, signal-free run. -/
lemma runLoop_pure_inv (p : PolicyName) (maxsize : Nat) :
    ∀ (lines : List String) (st : EngineState), Inv maxsize st →
      Inv maxsize (runLoop (policyFun p) maxsize st (lines.map plainLine) none).state ∧
      sinkBytes (runLoop (policyFun p) maxsize st (lines.map plainLine) none).state =
        sinkBytes st + totalBytes lines := by
  intro lines
  induction lines with
  | nil =>
    intro st hInv
    exact ⟨hInv, by simp [runLoop, totalBytes]⟩
  | cons s rest ih =>
    intro st hInv
    have hsnd : (step (policyFun p) maxsize st (plainLine s)).2 = StepExit.cont := by
      rw [plainLine_eq_evLine, step_evLine_snd]
      simp
    have hstep := inv_step p maxsize st s none hInv
    rw [← plainLine_eq_evLine] at hstep
    simp only [List.map_cons, runLoop_cons]
    cases hs : step (policyFun p) maxsize st (plainLine s) with
    | mk st' ex =>
      have hex : ex = StepExit.cont := by rw [hs] at hsnd; exact hsnd
      subst hex
      rw [hs] at hstep
      simp only
      have := ih st' hstep.1
      refine ⟨this.1, ?_⟩
      rw [this.2, hstep.2]
      simp [totalBytes]
      omega

/-- C1: if `bytesWritten + len(s) + 1 > maxsize`, the engine rotates before
writing `s` to the file sink: the old file is finalized with its previous
content, its path is renamed, a fresh path is opened, and `s` becomes the
first (sole) line of the new file; concretely, with maxsize 3 and lines
"ab" then "cd", "ab" triggers no rotation, the first finalized file is
exactly `ab\n`, and "cd" lands as the first line of the second file. -/
theorem rotate_before_write (p : PolicyName) (maxsize : Nat)
    (st : EngineState) (s : String)
    (h : st.cur + (byteLen s + 1) > maxsize) :
    ((step (policyFun p) maxsize st (plainLine s)).1.finalized
        = st.finalized ++ [st.curFile]
      ∧ (step (policyFun p) maxsize st (plainLine s)).1.curFile = [s]
      ∧ (step (policyFun p) maxsize st (plainLine s)).1.renameTrace
        = st.renameTrace ++ [st.path]
      ∧ (step (policyFun p) maxsize st (plainLine s)).1.path = st.nextPath
      ∧ (step (policyFun p) maxsize st (plainLine s)).2 = StepExit.cont)
    ∧ (pureRun .sigpipe 3 ["ab", "cd"]).state.finalized = [["ab"]]
    ∧ (pureRun .sigpipe 3 ["ab", "cd"]).state.curFile = ["cd"] := by
  refine ⟨?_, by decide, by decide⟩
  have h' : byteLen s + 1 + st.cur > maxsize := by omega
  rw [plainLine_eq_evLine, step_evLine_rot p maxsize st s none (Or.inl h')]
  simp

/-- Witness for C1 at a concrete threshold crossing. -/
theorem rotate_before_write_witness :
    initState.cur + (byteLen "abcd" + 1) > 3 ∧
    (step (policyFun PolicyName.sigpipe) 3 initState (plainLine "abcd")).1.curFile
      = ["abcd"] :=
  ⟨by decide,
   ((rotate_before_write PolicyName.sigpipe 3 initState "abcd" (by decide)).1).2.1⟩

/-- C3: over any error-free, signal-free run, the bytes across all
finalized files plus the currently open file equal the sum of
`len(line)+1` over all lines processed, and the byte counter always equals
the current file's content size. -/
theorem byte_conservation (p : PolicyName) (maxsize : Nat) (lines : List String) :
    sinkBytes (pureRun p maxsize lines).state = totalBytes lines ∧
    (pureRun p maxsize lines).state.cur =
      fileBytes (pureRun p maxsize lines).state.curFile := by
  have h := runLoop_pure_inv p maxsize lines initState (inv_initState maxsize)
  have h0 : sinkBytes initState = 0 := by simp [sinkBytes, initState, fileBytes]
  refine ⟨?_, h.1.1⟩
  have := h.2
  rw [h0] at this
  simpa [pureRun, run] using this

/-- C4 counterexample: with maxsize 3 and lines "abcde" then "x", the run
finalizes a file whose content `abcde\n` is 6 bytes, exceeding the maximum
size — the claim that no finalized file exceeds `maxSizeBytes` is false as
stated. -/
theorem finalized_exceeds_max_counterexample :
    ["abcde"] ∈ (pureRun PolicyName.sigpipe 3 ["abcde", "x"]).state.finalized ∧
    fileBytes ["abcde"] > 3 := by
  constructor
  · have h : (pureRun PolicyName.sigpipe 3 ["abcde", "x"]).state.finalized
        = [[], ["abcde"]] := by decide
    rw [h]
    simp
  · decide

/-- C4 amended: in an error-free, signal-free run, every finalized file
either fits within `maxsize` or consists of exactly one line `s` with
`len(s)+1 > maxsize` — an oversized line is written whole to its own file,
and only such files exceed the maximum. -/
theorem finalized_file_size (p : PolicyName) (maxsize : Nat)
    (lines : List String) (F : List String)
    (hF : F ∈ (pureRun p maxsize lines).state.finalized) :
    fileBytes F ≤ maxsize ∨ ∃ s, F = [s] ∧ byteLen s + 1 > maxsize := by
  have h := (runLoop_pure_inv p maxsize lines initState (inv_initState maxsize)).1
  have hd := h.2.1 F hF
  rcases hd with h1 | ⟨s, rfl⟩
  · exact Or.inl h1
  · by_cases hs : byteLen s + 1 ≤ maxsize
    · exact Or.inl (by simpa [fileBytes] using hs)
    · exact Or.inr ⟨s, rfl, by omega⟩

/-- Witness for the amended C4 at a concrete run. -/
theorem finalized_file_size_witness :
    ["ab"] ∈ (pureRun PolicyName.sigpipe 3 ["ab", "cd"]).state.finalized ∧
    (fileBytes ["ab"] ≤ 3 ∨ ∃ s, ["ab"] = [s] ∧ byteLen s + 1 > 3) :=
  ⟨by decide, finalized_file_size PolicyName.sigpipe 3 ["ab", "cd"] ["ab"] (by decide)⟩

/-- C10: in an errorless iteration, at most one rotation happens per line
(at most one file is finalized), and exactly one when the size trigger and
a pending signal-set rotate flag coincide; after a rotation the counter
restarts from this line alone (`cur = len(s)+1`, the file holds just `s`);
and the rotate flag after the iteration is set exactly when a SIGHUP was
polled after the line's file write. -/
theorem one_rotation_per_line (p : PolicyName) (maxsize : Nat)
    (st : EngineState) (s : String) (ev : Option Event) :
    (step (policyFun p) maxsize st (evLine s ev)).1.finalized.length
        ≤ st.finalized.length + 1
    ∧ (st.rotate = true → byteLen s + 1 + st.cur > maxsize →
        (step (policyFun p) maxsize st (evLine s ev)).1.finalized.length
          = st.finalized.length + 1)
    ∧ ((st.rotate = true ∨ byteLen s + 1 + st.cur > maxsize) →
        (step (policyFun p) maxsize st (evLine s ev)).1.cur = byteLen s + 1
        ∧ (step (policyFun p) maxsize st (evLine s ev)).1.curFile = [s])
    ∧ (step (policyFun p) maxsize st (evLine s ev)).1.rotate
        = decide (ev = some Event.sighup) := by
  by_cases hc : byteLen s + 1 + st.cur > maxsize ∨ st.rotate = true
  · rw [step_evLine_rot p maxsize st s ev hc]
    refine ⟨by simp, fun _ _ => by simp, fun _ => ⟨rfl, rfl⟩, rfl⟩
  · push_neg at hc
    rw [step_evLine_norot p maxsize st s ev hc.1 (Bool.not_eq_true _ ▸ hc.2)]
    refine ⟨by simp, ?_, ?_, rfl⟩
    · intro hr
      rw [hr] at hc
      exact absurd rfl hc.2
    · intro hor
      rcases hor with hr | hsz
      · rw [hr] at hc
        exact absurd rfl hc.2
      · omega

/-- Witness for C10 where a size trigger and a pending rotate flag
coincide on the same line. -/
theorem one_rotation_per_line_witness :
    (let st : EngineState := ⟨3, true, 0, 1, ["ab"], [], [], ["ab"]⟩
     (step (policyFun PolicyName.sigpipe) 3 st (evLine "cd" none)).1.finalized.length
       = st.finalized.length + 1) := by
  have h := one_rotation_per_line PolicyName.sigpipe 3
    ⟨3, true, 0, 1, ["ab"], [], [], ["ab"]⟩ "cd" none
  exact h.2.1 rfl (by decide)

/-- C5: the event channel is polled once per line, after the line's file
write.  A SIGTERM polled while processing line `s` ends the loop with a nil
result immediately — the remaining input is never read — and only after `s`
reached both sinks (it is the last line echoed and the last line of the
current file).  A SIGHUP polled while processing `s` only sets the rotate
flag and the loop continues; from any state with the flag set, the next
line `s2` is preceded by the rotation, so the file holding `s` is finalized
before `s2` is written and `s2` starts the new file. -/
theorem event_poll_semantics (p : PolicyName) (maxsize : Nat)
    (st : EngineState) (s s2 : String) (rest : List LineInput)
    (scanErr : Option Err) :
    (runLoop (policyFun p) maxsize st (evLine s (some Event.sigterm) :: rest) scanErr
        = ⟨(step (policyFun p) maxsize st (evLine s (some Event.sigterm))).1,
           (step (policyFun p) maxsize st (evLine s (some Event.sigterm))).1.path,
           none⟩)
    ∧ (step (policyFun p) maxsize st (evLine s (some Event.sigterm))).1.stdout
        = st.stdout ++ [s]
    ∧ (step (policyFun p) maxsize st (evLine s (some Event.sigterm))).1.curFile.getLast?
        = some s
    ∧ (step (policyFun p) maxsize st (evLine s (some Event.sighup))).2
        = StepExit.cont
    ∧ (step (policyFun p) maxsize st (evLine s (some Event.sighup))).1.rotate = true
    ∧ (∀ st' : EngineState, st'.rotate = true →
        (step (policyFun p) maxsize st' (plainLine s2)).1.finalized
            = st'.finalized ++ [st'.curFile]
          ∧ (step (policyFun p) maxsize st' (plainLine s2)).1.curFile = [s2]) := by
  refine ⟨?_, ?_, ?_, ?_, ?_, ?_⟩
  · rw [runLoop_cons]
    have hsnd := step_evLine_snd p maxsize st s (some Event.sigterm)
    simp only [if_pos rfl] at hsnd
    cases hs : step (policyFun p) maxsize st (evLine s (some Event.sigterm)) with
    | mk st' ex =>
      rw [hs] at hsnd
      subst hsnd
      rfl
  · by_cases hc : byteLen s + 1 + st.cur > maxsize ∨ st.rotate = true
    · rw [step_evLine_rot p maxsize st s _ hc]
    · push_neg at hc
      rw [step_evLine_norot p maxsize st s _ hc.1 (Bool.not_eq_true _ ▸ hc.2)]
  · by_cases hc : byteLen s + 1 + st.cur > maxsize ∨ st.rotate = true
    · rw [step_evLine_rot p maxsize st s _ hc]
      simp
    · push_neg at hc
      rw [step_evLine_norot p maxsize st s _ hc.1 (Bool.not_eq_true _ ▸ hc.2)]
      simp
  · rw [step_evLine_snd]
    simp
  · by_cases hc : byteLen s + 1 + st.cur > maxsize ∨ st.rotate = true
    · rw [step_evLine_rot p maxsize st s _ hc]
      simp
    · push_neg at hc
      rw [step_evLine_norot p maxsize st s _ hc.1 (Bool.not_eq_true _ ▸ hc.2)]
      simp
  · intro st' hr
    rw [plainLine_eq_evLine, step_evLine_rot p maxsize st' s2 none (Or.inr hr)]
    exact ⟨rfl, rfl⟩

/-- Witness for C5 at a concrete terminate and a concrete deferred
rotation. -/
theorem event_poll_semantics_witness :
    (runLoop (policyFun PolicyName.sigpipe) 100 initState
        (evLine "a" (some Event.sigterm) :: [plainLine "b"]) none
      = ⟨(step (policyFun PolicyName.sigpipe) 100 initState
            (evLine "a" (some Event.sigterm))).1,
         (step (policyFun PolicyName.sigpipe) 100 initState
            (evLine "a" (some Event.sigterm))).1.path,
         none⟩)
    ∧ (⟨3, true, 0, 1, ["a"], [], [], ["a"]⟩ : EngineState).rotate = true
    ∧ (step (policyFun PolicyName.sigpipe) 100
        (⟨3, true, 0, 1, ["a"], [], [], ["a"]⟩ : EngineState)
        (plainLine "b")).1.curFile = ["b"] := by
  have h := event_poll_semantics PolicyName.sigpipe 100 initState "a" "b"
    [plainLine "b"] none
  have h' := event_poll_semantics PolicyName.sigpipe 100
    (⟨3, true, 0, 1, ["a"], [], [], ["a"]⟩ : EngineState) "a" "b" [] none
  exact ⟨h.1, rfl, (h'.2.2.2.2.2 ⟨3, true, 0, 1, ["a"], [], [], ["a"]⟩ rfl).2⟩

/-- Invariant connecting the current path to the rename trace: the open
path has never been renamed, path ids below `nextPath`, and every renamed
path id is below `nextPath`. -/
def PathInv (st : EngineState) : Prop :=
  st.path ∉ st.renameTrace ∧ st.path < st.nextPath ∧
  ∀ q ∈ st.renameTrace, q < st.nextPath

lemma pathInv_initState : PathInv initState := by
  refine ⟨by simp [initState], by simp [initState], ?_⟩
  intro q hq
  simp [initState] at hq

lemma pathInv_writePhase (em : Option Err → ModeResult) (st : EngineState)
    (it : LineInput) :
    (writePhase em st it).1.path = st.path ∧
    (writePhase em st it).1.nextPath = st.nextPath ∧
    (writePhase em st it).1.renameTrace = st.renameTrace := by
  unfold writePhase
  cases h1 : (em it.fileErr).ret with
  | some e => exact ⟨rfl, rfl, rfl⟩
  | none =>
    cases h2 : it.ev with
    | none => exact ⟨rfl, rfl, rfl⟩
    | some e => cases e <;> exact ⟨rfl, rfl, rfl⟩

lemma pathInv_rotatePhase (p : PolicyName) (st : EngineState) (it : LineInput)
    (h : PathInv st) : PathInv (rotatePhase (policyFun p) st it).1 := by
  obtain ⟨hmem, hlt, hall⟩ := h
  have hfreshInv : PathInv
      { cur := 0, rotate := false, path := st.nextPath,
        nextPath := st.nextPath + 1, curFile := [],
        finalized := st.finalized ++ [st.curFile],
        renameTrace := st.renameTrace ++ [st.path], stdout := st.stdout } := by
    refine ⟨?_, ?_, ?_⟩
    · show st.nextPath ∉ st.renameTrace ++ [st.path]
      intro hmem'
      rcases List.mem_append.mp hmem' with hq | hq
      · exact absurd (hall _ hq) (by omega)
      · simp only [List.mem_singleton] at hq
        omega
    · show st.nextPath < st.nextPath + 1
      exact Nat.lt_succ_self _
    · show ∀ q ∈ st.renameTrace ++ [st.path], q < st.nextPath + 1
      intro q hq
      rcases List.mem_append.mp hq with hq | hq
      · exact Nat.lt_succ_of_lt (hall _ hq)
      · simp only [List.mem_singleton] at hq
        omega
  have hfreshInv' : PathInv
      { cur := 0, rotate := false, path := st.nextPath,
        nextPath := st.nextPath + 1, curFile := [],
        finalized := st.finalized, renameTrace := st.renameTrace,
        stdout := st.stdout } := by
    refine ⟨?_, ?_, ?_⟩
    · show st.nextPath ∉ st.renameTrace
      intro hmem'
      exact absurd (hall _ hmem') (by omega)
    · show st.nextPath < st.nextPath + 1
      exact Nat.lt_succ_self _
    · show ∀ q ∈ st.renameTrace, q < st.nextPath + 1
      intro q hq
      exact Nat.lt_succ_of_lt (hall _ hq)
  unfold rotatePhase
  cases h1 : (policyFun p it.closeErr).ret with
  | some e => exact ⟨hmem, hlt, hall⟩
  | none =>
    cases h2 : it.renameErr with
    | some e2 =>
      cases h3 : (policyFun p (some e2)).ret with
      | some e3 => exact ⟨hmem, hlt, hall⟩
      | none =>
        cases h4 : (policyFun p it.openErr).ret with
        | some e4 => exact hfreshInv'
        | none => exact hfreshInv'
    | none =>
      cases h3 : (policyFun p (none : Option Err)).ret with
      | some e3 =>
        have := policyFun_none p
        rw [this] at h3
        simp at h3
      | none =>
        cases h4 : (policyFun p it.openErr).ret with
        | some e4 => exact hfreshInv
        | none => exact hfreshInv

lemma pathInv_of_writePhase (em : Option Err → ModeResult) (st : EngineState)
    (it : LineInput) (h : PathInv st) : PathInv (writePhase em st it).1 := by
  obtain ⟨e1, e2, e3⟩ := pathInv_writePhase em st it
  unfold PathInv
  rw [e1, e2, e3]
  exact h

lemma pathInv_step (p : PolicyName) (maxsize : Nat) (st : EngineState)
    (it : LineInput) (h : PathInv st) :
    PathInv (step (policyFun p) maxsize st it).1 := by
  simp only [step]
  cases h1 : (policyFun p it.stdoutErr).ret with
  | some e => exact h
  | none =>
    have hA : PathInv { st with stdout :=
        if it.stdoutErr = none then st.stdout ++ [it.line] else st.stdout } := h
    cases hb : (decide (byteLen it.line + 1 + st.cur > maxsize) || st.rotate) with
    | false => exact pathInv_of_writePhase _ _ _ hA
    | true =>
      cases hr : rotatePhase (policyFun p) { st with stdout :=
          if it.stdoutErr = none then st.stdout ++ [it.line] else st.stdout } it with
      | mk stD oe =>
        have hrot := pathInv_rotatePhase p { st with stdout :=
          if it.stdoutErr = none then st.stdout ++ [it.line] else st.stdout } it hA
        rw [hr] at hrot
        cases oe with
        | some e => exact hrot
        | none => exact pathInv_of_writePhase _ _ _ hrot

/-- On every exit of the loop — end of input, SIGTERM, or a propagated
fatal error — the deferred cleanup targets the currently open path, and
`PathInv` still holds there. -/
lemma runLoop_pathInv (p : PolicyName) (maxsize : Nat) :
    ∀ (its : List LineInput) (st : EngineState) (scanErr : Option Err),
      PathInv st →
      (runLoop (policyFun p) maxsize st its scanErr).deferredRenamePath =
        (runLoop (policyFun p) maxsize st its scanErr).state.path ∧
      PathInv (runLoop (policyFun p) maxsize st its scanErr).state := by
  intro its
  induction its with
  | nil => exact fun st scanErr h => ⟨rfl, h⟩
  | cons it rest ih =>
    intro st scanErr h
    rw [runLoop_cons]
    have hstep := pathInv_step p maxsize st it h
    cases hs : step (policyFun p) maxsize st it with
    | mk st' ex =>
      rw [hs] at hstep
      cases ex with
      | cont => exact ih st' scanErr hstep
      | term => exact ⟨rfl, hstep⟩
      | fatal e => exact ⟨rfl, hstep⟩

/-- C7: on every exit path of the loop — normal end of input (with any
`stdin.Err()` result), a SIGTERM event, or a fatal classified write, close,
rename or open error on any iteration — the deferred cleanup finalizes the
currently open file's path, and that path was never finalized before, so
the finalize of the open file happens exactly once. -/
theorem deferred_finalize_once (p : PolicyName) (maxsize : Nat)
    (its : List LineInput) (scanErr : Option Err) :
    (run (policyFun p) maxsize its scanErr).deferredRenamePath =
      (run (policyFun p) maxsize its scanErr).state.path ∧
    (run (policyFun p) maxsize its scanErr).state.path ∉
      (run (policyFun p) maxsize its scanErr).state.renameTrace := by
  have h := runLoop_pathInv p maxsize its initState scanErr pathInv_initState
  exact ⟨h.1, h.2.1⟩

/-! ## Startup: `main` (main.go lines 80-92) and `initialize` (95-109)

The recovery scan is modelled over the glob matches, each paired with the
raw error its `state.rename` would produce (`none` = success). -/

/-- The scan loop of main.go `initialize` (lines 102-106): rename each
leftover in-progress file in turn; each rename error is gated by
`state.errMode`, and a non-nil gated result returns immediately.  Returns
the files for which a rename was attempted and the returned error. -/
def scanLoop (errMode : Option Err → ModeResult) :
    List (String × Option Err) → List String × Option Err
  | [] => ([], none)
  | (v, e) :: rest =>
    match (errMode e).ret with
    | some er => ([v], some er)
    | none =>
      let r := scanLoop errMode rest
      (v :: r.1, r.2)

/-- main.go `initialize` (lines 95-109): a `filepath.Glob` error is
returned immediately, not gated by the error mode; otherwise the scan loop
runs over the matches. -/
def initializeScan (errMode : Option Err → ModeResult) (globErr : Option Err)
    (files : List (String × Option Err)) : List String × Option Err :=
  match globErr with
  | some e => ([], some e)
  | none => scanLoop errMode files

/-- The scan loop of the part_000 variant's `initialize` (lines 98-102):
every rename is attempted; a failure is logged and the loop continues.
Returns the files attempted. -/
def scanLoopVariant : List (String × Option Err) → List String
  | [] => []
  | (v, _) :: rest => v :: scanLoopVariant rest

/-- main.go `main` startup (lines 80-86): `os.MkdirAll` gated by
`state.errMode` (`log.Fatalln` on non-nil), then `initialize`
(`log.Fatalln` on non-nil).  Returns the fatal error aborting startup (if
any) and the rename attempts the recovery scan made. -/
def mainStartup (p : PolicyName) (mkdirErr globErr : Option Err)
    (files : List (String × Option Err)) : Option Err × List String :=
  match (policyFun p mkdirErr).ret with
  | some e => (some e, [])
  | none =>
    let r := initializeScan (policyFun p) globErr files
    (r.2, r.1)

/-- C6 counterexample: with the `ignore` policy a failing `os.MkdirAll` is
suppressed by `state.errMode` and startup proceeds to the main loop — a
directory-creation failure is not always fatal, contradicting the claim.
(The same holds for `warn`, `warn-nopipe`, and `sigpipe` on non-pipe
errors.) -/
theorem startup_mkdir_not_fatal_counterexample :
    (mainStartup PolicyName.ignore (some Err.other) none []).1 = none ∧
    (mainStartup PolicyName.sigpipe (some Err.other) none []).1 = none := by
  exact ⟨rfl, rfl⟩

/-- C6 amended: an output-directory enumeration (glob) failure is fatal for
every policy whenever startup reaches the scan; a directory-creation
failure aborts startup exactly when the configured policy propagates the
error — when it is suppressed or logged, startup continues as if creation
succeeded. -/
theorem startup_fatal_classification (p : PolicyName) (e : Err)
    (me globErr : Option Err) (files : List (String × Option Err)) :
    (mainStartup p none (some e) files).1 = some e
    ∧ ((policyFun p me).ret = some e →
        (mainStartup p me globErr files).1 = some e)
    ∧ ((policyFun p me).ret = none →
        mainStartup p me globErr files = mainStartup p none globErr files) := by
  refine ⟨?_, ?_, ?_⟩
  · have h0 : (policyFun p (none : Option Err)).ret = none := by
      rw [policyFun_none]
    unfold mainStartup
    rw [h0]
    rfl
  · intro hme
    unfold mainStartup
    rw [hme]
  · intro hme
    have h0 : (policyFun p (none : Option Err)).ret = none := by
      rw [policyFun_none]
    unfold mainStartup
    rw [hme, h0]

/-- Witness for the amended C6: under `exit` a mkdir failure is fatal;
under `ignore` it is suppressed and startup behaves as if mkdir
succeeded. -/
theorem startup_fatal_classification_witness :
    (mainStartup PolicyName.exit none (some Err.other) []).1 = some Err.other
    ∧ (policyFun PolicyName.exit (some Err.other)).ret = some Err.other
    ∧ (mainStartup PolicyName.exit (some Err.other) none []).1 = some Err.other
    ∧ (policyFun PolicyName.ignore (some Err.other)).ret = none
    ∧ mainStartup PolicyName.ignore (some Err.other) none []
        = mainStartup PolicyName.ignore none none [] := by
  refine ⟨(startup_fatal_classification PolicyName.exit Err.other none none []).1,
    rfl,
    (startup_fatal_classification PolicyName.exit Err.other (some Err.other)
        none []).2.1 rfl,
    rfl,
    (startup_fatal_classification PolicyName.ignore Err.other (some Err.other)
        none []).2.2 rfl⟩

/-- C8 counterexample: with the `exit` policy, a failed rename of the first
leftover file aborts the scan, and the second file is never attempted —
contradicting the claim that this holds for every configured policy. -/
theorem scan_abort_counterexample :
    (scanLoop (policyFun PolicyName.exit)
        [("a", some Err.other), ("b", none)]).1 = ["a"]
    ∧ "b" ∉ (scanLoop (policyFun PolicyName.exit)
        [("a", some Err.other), ("b", none)]).1 := by
  refine ⟨rfl, ?_⟩
  intro hmem
  have h : (scanLoop (policyFun PolicyName.exit)
      [("a", some Err.other), ("b", none)]).1 = ["a"] := rfl
  rw [h] at hmem
  simp at hmem

/-- C8 amended: a failed rename does not block finalizing the remaining
files provided the configured policy classifies each rename error as
suppress or log (non-propagating); the part_000 variant (log-and-continue)
unconditionally attempts every file.  Under a propagating classification
(e.g. `exit`), the gated scan aborts instead. -/
theorem scan_continues_when_not_propagating (p : PolicyName)
    (files : List (String × Option Err))
    (h : ∀ pr ∈ files, (policyFun p pr.2).ret = none) :
    (scanLoop (policyFun p) files).1 = files.map Prod.fst
    ∧ (scanLoop (policyFun p) files).2 = none
    ∧ scanLoopVariant files = files.map Prod.fst := by
  induction files with
  | nil => exact ⟨rfl, rfl, rfl⟩
  | cons pr rest ih =>
    have hpr : (policyFun p pr.2).ret = none := h pr (by simp)
    have hrest : ∀ q ∈ rest, (policyFun p q.2).ret = none :=
      fun q hq => h q (by simp [hq])
    obtain ⟨ih1, ih2, ih3⟩ := ih hrest
    cases pr with
    | mk v e =>
      refine ⟨?_, ?_, ?_⟩
      · show (scanLoop (policyFun p) ((v, e) :: rest)).1 = v :: rest.map Prod.fst
        unfold scanLoop
        rw [hpr]
        simpa using ih1
      · show (scanLoop (policyFun p) ((v, e) :: rest)).2 = none
        unfold scanLoop
        rw [hpr]
        simpa using ih2
      · show scanLoopVariant ((v, e) :: rest) = v :: rest.map Prod.fst
        unfold scanLoopVariant
        rw [ih3]

/-- Witness for the amended C8: under `warn`, a failed first rename is
logged and the second file is still attempted. -/
theorem scan_continues_witness :
    (∀ pr ∈ [("a", some Err.other), ("b", (none : Option Err))],
      (policyFun PolicyName.warn pr.2).ret = none)
    ∧ (scanLoop (policyFun PolicyName.warn)
        [("a", some Err.other), ("b", none)]).1 = ["a", "b"] := by
  refine ⟨by decide, ?_⟩
  exact (scan_continues_when_not_propagating PolicyName.warn
    [("a", some Err.other), ("b", none)] (by decide)).1

end Rotatee
